import Mathlib

/-!
# gin-sessions: the session wrapper of `sessions.go`

A shallow embedding of the request-scoped session wrapper (`type session struct`)
and of its eight operations, followed by the properties of the specification.

* Go values of type `interface{}` are embedded as `Value`.
* A Go `panic` is embedded as the outcome `Outcome.abort`.
* The store is an external collaborator: it is a pair of functions over an
  arbitrary store state, and every call that reaches it is recorded in `World.calls`.
-/

set_option autoImplicit false
set_option linter.dupNamespace false

namespace GinSessions

/-! ## Go values -/

/-- Go `error` values. -/
abbrev Error := String

/-- Dynamic values whose type is comparable in Go: these can be used as keys of a
`map[interface{}]interface{}`. `nan` is a `float64` NaN: it can be hashed, but Go's `==`
does not hold between it and itself (the same goes for an array or struct holding one). -/
inductive Comparable where
  | nil
  | bool (b : Bool)
  | int (i : Int)
  | str (s : String)
  | nan
  deriving DecidableEq, Repr

/-- Go `a == b` on two dynamic values of comparable type: the same value, except that a
NaN equals nothing. -/
def Comparable.goEq (a b : Comparable) : Bool :=
  match a with
  | .nan => false
  | _ => decide (a = b)

/-- Whether `a == a` holds in Go. -/
def Comparable.selfEqual (a : Comparable) : Bool :=
  Comparable.goEq a a

/-- Dynamic values of type `interface{}`: a comparable value, or a slice (whose
dynamic type is not comparable, so that hashing it aborts at run time). -/
inductive Value where
  | comparable (c : Comparable)
  | slice (elems : List Value)
  deriving Repr

/-- The nil interface value: the zero value a map index yields for a missing key. -/
def Value.nil : Value := .comparable .nil

/-- Whether the value can be hashed and `key == key` holds in Go. -/
def Value.selfEqual : Value → Bool
  | .comparable c => c.selfEqual
  | .slice _ => false

/-- What a Go panic carries: an `error` handed to `panic(err)`, or the run-time error
"hash of unhashable type" raised by a map access whose key is not comparable. -/
inductive Fault where
  | err (e : Error)
  | unhashable (key : Value)
  deriving Repr

/-- How a Go call ends: it returns a result, or it panics. -/
inductive Outcome (α : Type) where
  | ret (a : α)
  | abort (f : Fault)
  deriving Repr

/-! ## Go maps with `interface{}` keys -/

/-- The content of a `map[interface{}]interface{}`: its entries, listed in the order in
which a `range` loop produces them (Go leaves this order unspecified, so every list is a
possible map). Only comparable values occur as keys; a map finds an entry by Go's `==` on
keys, so that an entry whose key is a NaN is never found again. -/
abbrev GoMap := List (Comparable × Value)

/-- The entry a lookup of the key finds, if any. -/
def GoMap.lookup (m : GoMap) (k : Comparable) : Option Value :=
  (m.find? (fun e => Comparable.goEq e.1 k)).map (fun e => e.2)

/-- The map without the entry a lookup of the key finds. -/
def GoMap.erase (m : GoMap) (k : Comparable) : GoMap :=
  m.filter (fun e => !Comparable.goEq e.1 k)

/-- The map with a key bound to a value: the entry found for the key is replaced, a new
entry is added when none is found (the position of the entry in the iteration order is
immaterial). -/
def GoMap.insert (m : GoMap) (k : Comparable) (v : Value) : GoMap :=
  (k, v) :: GoMap.erase m k

/-- Whether the map still stores an entry under this very key. -/
def GoMap.stores (m : GoMap) (k : Comparable) : Bool :=
  m.any (fun e => decide (e.1 = k))

/-- The entries a lookup never finds: those whose key is not equal to itself. -/
def GoMap.unreachable (m : GoMap) : GoMap :=
  m.filter (fun e => !Comparable.selfEqual e.1)

/-- The keys of the map, in iteration order. -/
def GoMap.keys (m : GoMap) : List Comparable :=
  m.map (fun e => e.1)

/-- Go `m[key]` as an expression: the stored value, the nil interface if the key is
missing, a run-time panic if the key is not comparable. -/
def GoMap.index (m : GoMap) (key : Value) : Outcome Value :=
  match key with
  | .comparable c => .ret ((GoMap.lookup m c).getD Value.nil)
  | .slice _ => .abort (.unhashable key)

/-- Go `m[key] = value`. -/
def GoMap.assign (m : GoMap) (key : Value) (value : Value) : Outcome GoMap :=
  match key with
  | .comparable c => .ret (GoMap.insert m c value)
  | .slice _ => .abort (.unhashable key)

/-- Go `delete(m, key)`. -/
def GoMap.delete (m : GoMap) (key : Value) : Outcome GoMap :=
  match key with
  | .comparable c => .ret (GoMap.erase m c)
  | .slice _ => .abort (.unhashable key)

/-! ## The session library and the store (external collaborators) -/

/-- Modelled from the spec: the library type `sessions.Options` is declared outside this
repository; the spec lists the cookie-writing options as path, domain, max-age, secure
and http-only, which are also the five fields `session.Options` fills in. -/
structure sessions.Options where
  Path : String := ""
  Domain : String := ""
  MaxAge : Int := 0
  Secure : Bool := false
  HttpOnly : Bool := false
  deriving DecidableEq, Repr

/-- The flash messages of a session, one ordered list per category; the category `none`
is the default one. -/
abbrev FlashLists := List (Option String × List Value)

/-- The messages queued in a category. -/
def FlashLists.get (fl : FlashLists) (cat : Option String) : List Value :=
  ((fl.find? (fun e => decide (e.1 = cat))).map (fun e => e.2)).getD []

/-- The lists without a category. -/
def FlashLists.erase (fl : FlashLists) (cat : Option String) : FlashLists :=
  fl.filter (fun e => !decide (e.1 = cat))

/-- The lists with a category set to the given messages. -/
def FlashLists.put (fl : FlashLists) (cat : Option String) (vs : List Value) : FlashLists :=
  (cat, vs) :: FlashLists.erase fl cat

/-- Modelled from the spec: the library type `sessions.Session` is declared outside this
repository. The spec describes the session data as a mapping from arbitrary key to
arbitrary value, plus an ordered list of flash messages and a set of cookie-writing
options. `ref` is the identity of the object the wrapper holds a pointer to; `Options`
is a pointer and may be nil. -/
structure sessions.Session where
  ref : Nat
  Values : GoMap
  flashes : FlashLists
  Options : Option sessions.Options

/-- The category selected by the variadic argument `vars ...string`: the one given, or
the default category when it is omitted. -/
def sessions.flashCategory (vars : List String) : Option String :=
  vars.head?

/-- Modelled from the spec: the library method `(*sessions.Session).AddFlash` is outside
this repository. The spec: it "appends value to the flash-message list under the given
category (default category if omitted)". -/
def sessions.Session.AddFlash (d : sessions.Session) (value : Value) (vars : List String) :
    sessions.Session :=
  let cat := sessions.flashCategory vars
  { d with flashes := FlashLists.put d.flashes cat (FlashLists.get d.flashes cat ++ [value]) }

/-- Modelled from the spec: the library method `(*sessions.Session).Flashes` is outside
this repository. The spec: it "returns and removes all flash messages for the given
category; returns empty sequence if none". -/
def sessions.Session.Flashes (d : sessions.Session) (vars : List String) :
    List Value × sessions.Session :=
  let cat := sessions.flashCategory vars
  (FlashLists.get d.flashes cat, { d with flashes := FlashLists.erase d.flashes cat })

/-- An `*http.Request`. -/
structure Request where
  id : Nat
  deriving DecidableEq, Repr

/-- An `http.ResponseWriter`. -/
structure ResponseWriter where
  id : Nat
  deriving DecidableEq, Repr

/-- Modelled from the spec: the `Store` interface embeds the library interface
`sessions.Store`, declared outside this repository. The spec gives the capability as
`get(request, name) -> (SessionData, Error)`, which "returns a session data object or
fails", and `save(request, response, SessionData) -> Error`. Both may change the state
`σ` the store lives in (cookies, headers, back end). -/
structure Store (σ : Type) where
  Get : Request → String → σ → Except Error sessions.Session × σ
  Save : Request → ResponseWriter → sessions.Session → σ → Option Error × σ

/-- A call that reached the store. -/
inductive StoreCall where
  | get (r : Request) (name : String)
  | save (r : Request) (w : ResponseWriter) (d : sessions.Session)

/-- Whether a recorded call is a fetch. -/
def StoreCall.isGet : StoreCall → Bool
  | .get _ _ => true
  | .save _ _ _ => false

/-- Whether a recorded call is a save. -/
def StoreCall.isSave : StoreCall → Bool
  | .get _ _ => false
  | .save _ _ _ => true

/-- Everything outside the wrapper: the state of the store and the record of the calls
made to it so far. -/
structure World (σ : Type) where
  st : σ
  calls : List StoreCall

/-- The number of fetches recorded. -/
def World.gets {σ : Type} (w : World σ) : Nat :=
  w.calls.countP StoreCall.isGet

/-- The number of saves recorded. -/
def World.saves {σ : Type} (w : World σ) : Nat :=
  w.calls.countP StoreCall.isSave

/-- Modelled from the spec: the library method `(*sessions.Session).Save(r, w)` is outside
this repository. The spec: save "serializes the current session data object via the
store", whose capability is `save(request, response, SessionData) -> Error`. -/
def sessions.Session.Save {σ : Type} (d : sessions.Session) (store : Store σ)
    (r : Request) (wr : ResponseWriter) (w : World σ) : Option Error × World σ :=
  ((store.Save r wr d w.st).1, ⟨(store.Save r wr d w.st).2, w.calls ++ [.save r wr d]⟩)

/-! ## The wrapper (`sessions.go`) -/

/-- The `Options` struct of `sessions.go`. -/
structure Options where
  Path : String := ""
  Domain : String := ""
  MaxAge : Int := 0
  Secure : Bool := false
  HttpOnly : Bool := false
  deriving DecidableEq, Repr

/-- The `session` struct: the wrapper of one request. `session` is the lazily fetched
`*sessions.Session`, nil until the first access. -/
structure session (σ : Type) where
  name : String
  request : Request
  writer : ResponseWriter
  store : Store σ
  session : Option sessions.Session

/-- The wrapper the handler of `Sessions(name, store)` builds for a request. -/
def Sessions {σ : Type} (name : String) (store : Store σ) (request : Request)
    (writer : ResponseWriter) : session σ :=
  { name := name, request := request, writer := writer, store := store, session := none }

variable {σ : Type}

/-- `func (s *session) Session() *sessions.Session`. -/
def session.Session (s : GinSessions.session σ) (w : World σ) :
    Outcome sessions.Session × GinSessions.session σ × World σ :=
  match s.session with
  | none =>
    match s.store.Get s.request s.name w.st with
    | (.error err, st) => (.abort (.err err), s, ⟨st, w.calls ++ [.get s.request s.name]⟩)
    | (.ok sess, st) =>
      (.ret sess, { s with session := some sess }, ⟨st, w.calls ++ [.get s.request s.name]⟩)
  | some sess => (.ret sess, s, w)

/-- `func (s *session) Get(key interface{}) interface{}`. -/
def session.Get (s : GinSessions.session σ) (key : Value) (w : World σ) :
    Outcome Value × GinSessions.session σ × World σ :=
  match s.Session w with
  | (.abort f, s1, w1) => (.abort f, s1, w1)
  | (.ret sess, s1, w1) => (GoMap.index sess.Values key, s1, w1)

/-- `func (s *session) Set(key interface{}, value interface{})`. -/
def session.Set (s : GinSessions.session σ) (key : Value) (value : Value)
    (w : World σ) :
    Outcome Unit × GinSessions.session σ × World σ :=
  match s.Session w with
  | (.abort f, s1, w1) => (.abort f, s1, w1)
  | (.ret sess, s1, w1) =>
    match GoMap.assign sess.Values key value with
    | .abort f => (.abort f, s1, w1)
    | .ret m => (.ret (), { s1 with session := some { sess with Values := m } }, w1)

/-- `func (s *session) Delete(key interface{})`. -/
def session.Delete (s : GinSessions.session σ) (key : Value) (w : World σ) :
    Outcome Unit × GinSessions.session σ × World σ :=
  match s.Session w with
  | (.abort f, s1, w1) => (.abort f, s1, w1)
  | (.ret sess, s1, w1) =>
    match GoMap.delete sess.Values key with
    | .abort f => (.abort f, s1, w1)
    | .ret m => (.ret (), { s1 with session := some { sess with Values := m } }, w1)

/-- Whether the map the wrapper points to still holds the entry of the key. -/
def session.holds (s : GinSessions.session σ) (k : Comparable) : Bool :=
  match s.session with
  | none => false
  | some sess => GoMap.stores sess.Values k

/-- The loop `for key := range m { s.Delete(key) }` over the keys not yet produced: a key
whose entry was removed in the meantime is not produced; for every other one the body
runs, and a panic of the body ends the loop. -/
def session.clearLoop : List Comparable → GinSessions.session σ → World σ →
    Outcome Unit × GinSessions.session σ × World σ
  | [], s, w => (.ret (), s, w)
  | k :: rest, s, w =>
    if s.holds k then
      match s.Delete (.comparable k) w with
      | (.abort f, s1, w1) => (.abort f, s1, w1)
      | (.ret _, s1, w1) => session.clearLoop rest s1 w1
    else session.clearLoop rest s w

/-- `func (s *session) Clear()`. -/
def session.Clear (s : GinSessions.session σ) (w : World σ) :
    Outcome Unit × GinSessions.session σ × World σ :=
  match s.Session w with
  | (.abort f, s1, w1) => (.abort f, s1, w1)
  | (.ret sess, s1, w1) => session.clearLoop (GoMap.keys sess.Values) s1 w1

/-- `func (s *session) AddFlash(value interface{}, vars ...string)`. -/
def session.AddFlash (s : GinSessions.session σ) (value : Value) (vars : List String)
    (w : World σ) :
    Outcome Unit × GinSessions.session σ × World σ :=
  match s.Session w with
  | (.abort f, s1, w1) => (.abort f, s1, w1)
  | (.ret sess, s1, w1) =>
    (.ret (), { s1 with session := some (sess.AddFlash value vars) }, w1)

/-- `func (s *session) Flashes(vars ...string) []interface{}`. -/
def session.Flashes (s : GinSessions.session σ) (vars : List String) (w : World σ) :
    Outcome (List Value) × GinSessions.session σ × World σ :=
  match s.Session w with
  | (.abort f, s1, w1) => (.abort f, s1, w1)
  | (.ret sess, s1, w1) =>
    (.ret (sess.Flashes vars).1, { s1 with session := some (sess.Flashes vars).2 }, w1)

/-- `func (s *session) Save() error`. -/
def session.Save (s : GinSessions.session σ) (w : World σ) :
    Outcome (Option Error) × GinSessions.session σ × World σ :=
  match s.Session w with
  | (.abort f, s1, w1) => (.abort f, s1, w1)
  | (.ret sess, s1, w1) =>
    (.ret (sess.Save s.store s.request s.writer w1).1, s1,
      (sess.Save s.store s.request s.writer w1).2)

/-- `func (s *session) Options(options Options)`. -/
def session.Options (s : GinSessions.session σ) (options : GinSessions.Options)
    (w : World σ) :
    Outcome Unit × GinSessions.session σ × World σ :=
  match s.Session w with
  | (.abort f, s1, w1) => (.abort f, s1, w1)
  | (.ret sess, s1, w1) =>
    let o : sessions.Options :=
      { Path := options.Path, Domain := options.Domain, MaxAge := options.MaxAge,
        Secure := options.Secure, HttpOnly := options.HttpOnly }
    (.ret (), { s1 with session := some { sess with Options := some o } }, w1)

/-! ## Sequences of operations -/

/-- Whether the lazy fetch of the wrapper succeeds: `Session()` returns. -/
def session.fetchOk (s : GinSessions.session σ) (w : World σ) : Bool :=
  match (s.Session w).1 with
  | .ret _ => true
  | .abort _ => false

/-- A call of one of the eight operations of the `Session` interface. -/
inductive Op where
  | Get (key : Value)
  | Set (key : Value) (value : Value)
  | Delete (key : Value)
  | Clear
  | AddFlash (value : Value) (vars : List String)
  | Flashes (vars : List String)
  | Save
  | Options (options : GinSessions.Options)

/-- Forget the value a call returned. -/
def Outcome.void {α : Type} : Outcome α → Outcome Unit
  | .ret _ => .ret ()
  | .abort f => .abort f

/-- Run one call. -/
def session.apply (s : GinSessions.session σ) (op : Op) (w : World σ) :
    Outcome Unit × GinSessions.session σ × World σ :=
  match op with
  | .Get key => ((s.Get key w).1.void, (s.Get key w).2)
  | .Set key value => s.Set key value w
  | .Delete key => s.Delete key w
  | .Clear => s.Clear w
  | .AddFlash value vars => s.AddFlash value vars w
  | .Flashes vars => ((s.Flashes vars w).1.void, (s.Flashes vars w).2)
  | .Save => ((s.Save w).1.void, (s.Save w).2)
  | .Options options => s.Options options w

/-- Run a sequence of calls on one wrapper; a panic ends the sequence (nothing recovers
from it and no call is deferred). -/
def session.run : List Op → GinSessions.session σ → World σ →
    Outcome Unit × GinSessions.session σ × World σ
  | [], s, w => (.ret (), s, w)
  | op :: ops, s, w =>
    match s.apply op w with
    | (.abort f, s1, w1) => (.abort f, s1, w1)
    | (.ret _, s1, w1) => session.run ops s1 w1

/-- Run a sequence of calls on one wrapper, going on after a call that panicked: the caller
recovered from the panic, or the later calls are deferred ones (`defer session.Save()`),
which Go runs while the panic unwinds. -/
def session.runAll : List Op → GinSessions.session σ → World σ →
    GinSessions.session σ × World σ
  | [], s, w => (s, w)
  | op :: ops, s, w => session.runAll ops (s.apply op w).2.1 (s.apply op w).2.2

/-- Queue a sequence of flash messages with `AddFlash`, one call per value. -/
def session.addFlashes : List Value → List String → GinSessions.session σ → World σ →
    Outcome Unit × GinSessions.session σ × World σ
  | [], _, s, w => (.ret (), s, w)
  | v :: vs, vars, s, w =>
    match s.AddFlash v vars w with
    | (.abort f, s1, w1) => (.abort f, s1, w1)
    | (.ret _, s1, w1) => session.addFlashes vs vars s1 w1

/-- Whether the key argument of a call, if it has one, is comparable. -/
def Op.keyComparable : Op → Bool
  | .Get (.slice _) => false
  | .Set (.slice _) _ => false
  | .Delete (.slice _) => false
  | _ => true

/-- Whether a call is `Save`. -/
def Op.isSave : Op → Bool
  | .Save => true
  | _ => false

/-- A store whose `get` returns the session data most recently handed to its `save`:
after a successful save of `d`, every fetch yields a session with the values and the
flash messages of `d`. -/
def Store.RoundTrip (store : Store σ) : Prop :=
  ∀ (r : Request) (wr : ResponseWriter) (d : sessions.Session) (st : σ),
    (store.Save r wr d st).1 = none →
    ∀ (r2 : Request) (name : String), ∃ d2 : sessions.Session,
      (store.Get r2 name (store.Save r wr d st).2).1 = .ok d2 ∧
      d2.Values = d.Values ∧ d2.flashes = d.flashes

/-- A store that keeps the values and flash messages it was last given. -/
def memStore : Store (GoMap × FlashLists) where
  Get := fun _ _ st => (.ok { ref := 0, Values := st.1, flashes := st.2, Options := none }, st)
  Save := fun _ _ d _ => (none, (d.Values, d.flashes))

/-- A store whose fetch always fails with the given error. -/
def failStore (e : Error) : Store Unit where
  Get := fun _ _ st => (.error e, st)
  Save := fun _ _ _ st => (none, st)

/-- The session data after queueing the values one by one. -/
def sessions.Session.addAll (d : sessions.Session) (xs : List Value) (vars : List String) :
    sessions.Session :=
  xs.foldl (fun d x => d.AddFlash x vars) d

/-! ## Concrete inputs -/

/-- The wrapper of a first request to a server using `memStore`. -/
def exampleSession : GinSessions.session (GoMap × FlashLists) :=
  Sessions "my_session" memStore ⟨1⟩ ⟨1⟩

/-- A world in which nothing was saved yet. -/
def exampleWorld : World (GoMap × FlashLists) :=
  ⟨([], []), []⟩

/-- A world whose store holds three values and one flash message. -/
def exampleWorld3 : World (GoMap × FlashLists) :=
  ⟨([(.str "hello", .comparable (.str "world")), (.str "foo", .comparable (.str "bar")),
     (.str "apples", .comparable (.str "oranges"))], [(none, [.comparable (.int 7)])]), []⟩

/-- The wrapper of a request whose store fails to decode the session with "bad cookie". -/
def exampleFailing : GinSessions.session Unit :=
  Sessions "my_session" (failStore "bad cookie") ⟨1⟩ ⟨1⟩

/-- A session object holding one value and the store-wide default domain maji.moe. -/
def exampleData : sessions.Session :=
  { ref := 1
    Values := [(.str "hello", .comparable (.str "world"))]
    flashes := []
    Options := some { Domain := "maji.moe" } }

/-- A wrapper that already fetched a session carrying the store-wide default domain. -/
def exampleInitialized : GinSessions.session (GoMap × FlashLists) :=
  { name := "my_session", request := ⟨1⟩, writer := ⟨1⟩, store := memStore,
    session := some exampleData }

/-! ## Maps -/

theorem Comparable.goEq_iff (a b : Comparable) :
    Comparable.goEq a b = true ↔ a = b ∧ a ≠ .nan := by
  cases a <;> simp [Comparable.goEq]

theorem Comparable.goEq_self (a : Comparable) (h : a.selfEqual = true) :
    Comparable.goEq a a = true := h

theorem GoMap.lookup_erase_self (m : GoMap) (k : Comparable) :
    GoMap.lookup (GoMap.erase m k) k = none := by
  simp only [GoMap.lookup, GoMap.erase, Option.map_eq_none', List.find?_eq_none]
  intro e he
  rw [List.mem_filter] at he
  simpa using he.2

theorem GoMap.lookup_erase_ne (m : GoMap) (k k2 : Comparable) (h : k2 ≠ k) :
    GoMap.lookup (GoMap.erase m k) k2 = GoMap.lookup m k2 := by
  induction m with
  | nil => rfl
  | cons e m ih =>
    obtain ⟨a, b⟩ := e
    simp only [GoMap.lookup, GoMap.erase] at ih ⊢
    rw [List.filter_cons]
    cases h1 : Comparable.goEq a k
    · simp only [Bool.not_false, if_true]
      rw [List.find?_cons, List.find?_cons]
      cases hd : Comparable.goEq a k2
      · exact ih
      · rfl
    · have h2 := (Comparable.goEq_iff a k).1 h1
      have h3 : Comparable.goEq a k2 = false := by
        cases h4 : Comparable.goEq a k2
        · rfl
        · exact absurd (((Comparable.goEq_iff a k2).1 h4).1.symm.trans h2.1) h
      simp only [Bool.not_true, Bool.false_eq_true, if_false]
      rw [List.find?_cons]
      simp only [h3]
      exact ih

theorem GoMap.lookup_insert_self (m : GoMap) (k : Comparable) (v : Value)
    (h : k.selfEqual = true) : GoMap.lookup (GoMap.insert m k v) k = some v := by
  simp only [GoMap.lookup, GoMap.insert, List.find?_cons, Comparable.goEq_self k h]
  rfl

theorem GoMap.lookup_insert_ne (m : GoMap) (k k2 : Comparable) (v : Value) (h : k2 ≠ k) :
    GoMap.lookup (GoMap.insert m k v) k2 = GoMap.lookup m k2 := by
  have h3 : Comparable.goEq k k2 = false := by
    cases h4 : Comparable.goEq k k2
    · rfl
    · exact absurd ((Comparable.goEq_iff k k2).1 h4).1.symm h
  have := GoMap.lookup_erase_ne m k k2 h
  simp only [GoMap.lookup, GoMap.insert] at this ⊢
  rw [List.find?_cons]
  simp only [h3]
  exact this

theorem GoMap.erase_of_not_selfEqual (m : GoMap) (k : Comparable)
    (h : k.selfEqual = false) : GoMap.erase m k = m := by
  simp only [GoMap.erase, List.filter_eq_self]
  intro e _
  cases h4 : Comparable.goEq e.1 k
  · rfl
  · obtain ⟨h5, h6⟩ := (Comparable.goEq_iff e.1 k).1 h4
    rw [h5] at h4
    exact absurd h4 (by rw [show Comparable.goEq k k = false from h]; simp)

theorem GoMap.lookup_of_not_selfEqual (m : GoMap) (k : Comparable)
    (h : k.selfEqual = false) : GoMap.lookup m k = none := by
  rw [← GoMap.erase_of_not_selfEqual m k h]
  exact GoMap.lookup_erase_self m k

theorem GoMap.lookup_unreachable (m : GoMap) (k : Comparable) :
    GoMap.lookup (GoMap.unreachable m) k = none := by
  simp only [GoMap.lookup, GoMap.unreachable, Option.map_eq_none', List.find?_eq_none]
  intro e he
  rw [List.mem_filter] at he
  intro h4
  obtain ⟨h5, h6⟩ := (Comparable.goEq_iff e.1 k).1 h4
  have h7 : Comparable.selfEqual e.1 = true := by
    rw [Comparable.selfEqual, Comparable.goEq_iff]
    exact ⟨rfl, h6⟩
  simp [h7] at he

/-! ## The lazy fetch -/

theorem session.Session_of_some (s : GinSessions.session σ) (w : World σ)
    (d : sessions.Session) (h : s.session = some d) : s.Session w = (.ret d, s, w) := by
  simp [session.Session, h]

theorem session.Session_ret (s s1 : GinSessions.session σ) (w w1 : World σ)
    (d : sessions.Session) (h : s.Session w = (.ret d, s1, w1)) :
    s1.session = some d ∧ s1.name = s.name ∧ s1.request = s.request ∧
      s1.writer = s.writer ∧ s1.store = s.store := by
  unfold session.Session at h
  split at h
  · split at h
    · simp at h
    · simp only [Prod.mk.injEq, Outcome.ret.injEq] at h
      obtain ⟨h1, h2, _⟩ := h
      subst h1; subst h2
      simp
  · next d2 hd =>
    simp only [Prod.mk.injEq, Outcome.ret.injEq] at h
    obtain ⟨h1, h2, _⟩ := h
    subst h1; subst h2
    simp [hd]

theorem session.fetchOk_iff (s : GinSessions.session σ) (w : World σ) :
    s.fetchOk w = true ↔ ∃ d s1 w1, s.Session w = (.ret d, s1, w1) := by
  unfold session.fetchOk
  constructor
  · intro h
    split at h
    · next d hd => exact ⟨d, (s.Session w).2.1, (s.Session w).2.2, by rw [← hd]⟩
    · simp at h
  · rintro ⟨d, s1, w1, h⟩
    simp [h]

/-! ## The operations on an initialized wrapper, and after a successful fetch -/

theorem session.Get_of_some (s : GinSessions.session σ) (w : World σ) (d : sessions.Session)
    (key : Value) (h : s.session = some d) :
    s.Get key w = (GoMap.index d.Values key, s, w) := by
  simp [session.Get, session.Session_of_some s w d h]

theorem session.Set_of_some (s : GinSessions.session σ) (w : World σ) (d : sessions.Session)
    (c : Comparable) (value : Value) (h : s.session = some d) :
    s.Set (.comparable c) value w =
      (.ret (), { s with session := some { d with Values := GoMap.insert d.Values c value } },
        w) := by
  simp [session.Set, session.Session_of_some s w d h, GoMap.assign]

theorem session.Set_slice_of_some (s : GinSessions.session σ) (w : World σ)
    (d : sessions.Session) (elems : List Value) (value : Value) (h : s.session = some d) :
    s.Set (.slice elems) value w = (.abort (.unhashable (.slice elems)), s, w) := by
  simp [session.Set, session.Session_of_some s w d h, GoMap.assign]

theorem session.Delete_of_some (s : GinSessions.session σ) (w : World σ)
    (d : sessions.Session) (c : Comparable) (h : s.session = some d) :
    s.Delete (.comparable c) w =
      (.ret (), { s with session := some { d with Values := GoMap.erase d.Values c } },
        w) := by
  simp [session.Delete, session.Session_of_some s w d h, GoMap.delete]

theorem session.Delete_slice_of_some (s : GinSessions.session σ) (w : World σ)
    (d : sessions.Session) (elems : List Value) (h : s.session = some d) :
    s.Delete (.slice elems) w = (.abort (.unhashable (.slice elems)), s, w) := by
  simp [session.Delete, session.Session_of_some s w d h, GoMap.delete]

theorem session.AddFlash_of_some (s : GinSessions.session σ) (w : World σ)
    (d : sessions.Session) (value : Value) (vars : List String) (h : s.session = some d) :
    s.AddFlash value vars w =
      (.ret (), { s with session := some (d.AddFlash value vars) }, w) := by
  simp [session.AddFlash, session.Session_of_some s w d h]

theorem session.Flashes_of_some (s : GinSessions.session σ) (w : World σ)
    (d : sessions.Session) (vars : List String) (h : s.session = some d) :
    s.Flashes vars w =
      (.ret (d.Flashes vars).1, { s with session := some (d.Flashes vars).2 }, w) := by
  simp [session.Flashes, session.Session_of_some s w d h]

theorem session.Save_of_some (s : GinSessions.session σ) (w : World σ)
    (d : sessions.Session) (h : s.session = some d) :
    s.Save w = (.ret (s.store.Save s.request s.writer d w.st).1, s,
      ⟨(s.store.Save s.request s.writer d w.st).2,
        w.calls ++ [.save s.request s.writer d]⟩) := by
  simp [session.Save, session.Session_of_some s w d h, sessions.Session.Save]

theorem session.Options_of_some (s : GinSessions.session σ) (w : World σ)
    (d : sessions.Session) (o : GinSessions.Options) (h : s.session = some d) :
    s.Options o w =
      (.ret (), { s with session := some { d with
        Options := some ⟨o.Path, o.Domain, o.MaxAge, o.Secure, o.HttpOnly⟩ } }, w) := by
  simp [session.Options, session.Session_of_some s w d h]

theorem session.Get_of_fetch (s s1 : GinSessions.session σ) (w w1 : World σ)
    (d : sessions.Session) (key : Value) (h : s.Session w = (.ret d, s1, w1)) :
    s.Get key w = s1.Get key w1 := by
  rw [session.Get_of_some s1 w1 d key (session.Session_ret s s1 w w1 d h).1]
  simp [session.Get, h]

theorem session.Set_of_fetch (s s1 : GinSessions.session σ) (w w1 : World σ)
    (d : sessions.Session) (key value : Value) (h : s.Session w = (.ret d, s1, w1)) :
    s.Set key value w = s1.Set key value w1 := by
  have h1 := (session.Session_ret s s1 w w1 d h).1
  simp [session.Set, h, session.Session_of_some s1 w1 d h1]

theorem session.Delete_of_fetch (s s1 : GinSessions.session σ) (w w1 : World σ)
    (d : sessions.Session) (key : Value) (h : s.Session w = (.ret d, s1, w1)) :
    s.Delete key w = s1.Delete key w1 := by
  have h1 := (session.Session_ret s s1 w w1 d h).1
  simp [session.Delete, h, session.Session_of_some s1 w1 d h1]

theorem session.Clear_of_fetch (s s1 : GinSessions.session σ) (w w1 : World σ)
    (d : sessions.Session) (h : s.Session w = (.ret d, s1, w1)) :
    s.Clear w = s1.Clear w1 := by
  have h1 := (session.Session_ret s s1 w w1 d h).1
  simp [session.Clear, h, session.Session_of_some s1 w1 d h1]

theorem session.AddFlash_of_fetch (s s1 : GinSessions.session σ) (w w1 : World σ)
    (d : sessions.Session) (value : Value) (vars : List String)
    (h : s.Session w = (.ret d, s1, w1)) :
    s.AddFlash value vars w = s1.AddFlash value vars w1 := by
  have h1 := (session.Session_ret s s1 w w1 d h).1
  simp [session.AddFlash, h, session.Session_of_some s1 w1 d h1]

theorem session.Flashes_of_fetch (s s1 : GinSessions.session σ) (w w1 : World σ)
    (d : sessions.Session) (vars : List String) (h : s.Session w = (.ret d, s1, w1)) :
    s.Flashes vars w = s1.Flashes vars w1 := by
  have h1 := (session.Session_ret s s1 w w1 d h).1
  simp [session.Flashes, h, session.Session_of_some s1 w1 d h1]

theorem session.Save_of_fetch (s s1 : GinSessions.session σ) (w w1 : World σ)
    (d : sessions.Session) (h : s.Session w = (.ret d, s1, w1)) :
    s.Save w = s1.Save w1 := by
  obtain ⟨h1, _, h3, h4, h5⟩ := session.Session_ret s s1 w w1 d h
  simp [session.Save, h, session.Session_of_some s1 w1 d h1, h3, h4, h5]

theorem session.Options_of_fetch (s s1 : GinSessions.session σ) (w w1 : World σ)
    (d : sessions.Session) (o : GinSessions.Options) (h : s.Session w = (.ret d, s1, w1)) :
    s.Options o w = s1.Options o w1 := by
  have h1 := (session.Session_ret s s1 w w1 d h).1
  simp [session.Options, h, session.Session_of_some s1 w1 d h1]

/-! ## The loop of `Clear` -/

theorem GoMap.erase_of_not_stores (m : GoMap) (k : Comparable)
    (h : GoMap.stores m k = false) : GoMap.erase m k = m := by
  simp only [GoMap.erase, List.filter_eq_self]
  intro e he
  cases h4 : Comparable.goEq e.1 k
  · rfl
  · have h5 := ((Comparable.goEq_iff e.1 k).1 h4).1
    have h6 : GoMap.stores m k = true := by
      simp only [GoMap.stores, List.any_eq_true, decide_eq_true_eq]
      exact ⟨e, he, h5⟩
    rw [h] at h6
    exact absurd h6 (by simp)

theorem GoMap.foldl_erase_eq_filter (ks : List Comparable) :
    ∀ m : GoMap, ks.foldl GoMap.erase m =
      m.filter (fun e => ks.all (fun k => !Comparable.goEq e.1 k)) := by
  induction ks with
  | nil =>
    intro m
    simp
  | cons k ks ih =>
    intro m
    rw [List.foldl_cons, ih, GoMap.erase, List.filter_filter]
    apply List.filter_congr
    intro e _
    simp only [List.all_cons]
    exact Bool.and_comm _ _

theorem GoMap.foldl_erase_keys (m : GoMap) :
    (GoMap.keys m).foldl GoMap.erase m = GoMap.unreachable m := by
  rw [GoMap.foldl_erase_eq_filter, GoMap.unreachable]
  apply List.filter_congr
  intro e he
  cases h1 : Comparable.selfEqual e.1
  · have h2 : ∀ k, Comparable.goEq e.1 k = false := by
      intro k
      cases h4 : Comparable.goEq e.1 k
      · rfl
      · obtain ⟨_, h6⟩ := (Comparable.goEq_iff e.1 k).1 h4
        have h7 : Comparable.selfEqual e.1 = true := by
          rw [Comparable.selfEqual, Comparable.goEq_iff]
          exact ⟨rfl, h6⟩
        rw [h1] at h7
        exact absurd h7 (by simp)
    simp [h2]
  · simp only [Bool.not_true, List.all_eq_false, Bool.not_eq_true, Bool.not_eq_false']
    exact ⟨e.1, List.mem_map_of_mem (fun e => e.1) he, h1⟩

theorem session.clearLoop_of_some (ks : List Comparable) :
    ∀ (s : GinSessions.session σ) (w : World σ) (d : sessions.Session),
      s.session = some d →
      session.clearLoop ks s w =
        (.ret (), { s with session := some { d with Values := ks.foldl GoMap.erase d.Values } },
          w) := by
  induction ks with
  | nil =>
    intro s w d h
    cases s
    simp only at h
    subst h
    rfl
  | cons k ks ih =>
    intro s w d h
    rw [session.clearLoop]
    by_cases hk : s.holds k = true
    · rw [if_pos hk, session.Delete_of_some s w d k h]
      simp only
      rw [ih _ w { d with Values := GoMap.erase d.Values k } rfl]
      rfl
    · rw [if_neg hk, ih s w d h]
      have h2 : GoMap.stores d.Values k = false := by
        simp only [session.holds, h] at hk
        cases hl : GoMap.stores d.Values k with
        | false => rfl
        | true => exact absurd hl hk
      rw [List.foldl_cons, GoMap.erase_of_not_stores d.Values k h2]

theorem session.Clear_of_some (s : GinSessions.session σ) (w : World σ)
    (d : sessions.Session) (h : s.session = some d) :
    s.Clear w =
      (.ret (), { s with session := some { d with Values := GoMap.unreachable d.Values } },
        w) := by
  rw [session.Clear, session.Session_of_some s w d h]
  simp only
  rw [session.clearLoop_of_some _ s w d h, GoMap.foldl_erase_keys]

/-! ## The next request -/

theorem session.next_request_fetch (s : GinSessions.session σ) (w : World σ)
    (d : sessions.Session) (h : s.session = some d) (hrt : Store.RoundTrip s.store)
    (hsave : (s.Save w).1 = .ret none) (name : String) (r2 : Request) (wr2 : ResponseWriter) :
    ∃ d2 s2 w2, (Sessions name s.store r2 wr2).Session (s.Save w).2.2 = (.ret d2, s2, w2) ∧
      d2.Values = d.Values ∧ d2.flashes = d.flashes := by
  rw [session.Save_of_some s w d h] at hsave ⊢
  simp only [Outcome.ret.injEq] at hsave
  obtain ⟨d2, hg, hv, hf⟩ := hrt s.request s.writer d w.st hsave r2 name
  rcases hgp : s.store.Get r2 name (s.store.Save s.request s.writer d w.st).2 with ⟨res, st⟩
  rw [hgp] at hg
  simp only at hg
  subst hg
  exact ⟨d2, ⟨name, r2, wr2, s.store, some d2⟩,
    ⟨st, w.calls ++ [.save s.request s.writer d] ++ [.get r2 name]⟩,
    by simp only [session.Session, Sessions, hgp], hv, hf⟩

theorem session.Set_ret_inv (s s1 : GinSessions.session σ) (w w1 : World σ) (K V : Value)
    (h : s.Set K V w = (.ret (), s1, w1)) :
    ∃ (d : sessions.Session) (c : Comparable) (s0 : GinSessions.session σ),
      s.Session w = (.ret d, s0, w1) ∧ K = .comparable c ∧
      s1 = { s0 with session := some { d with Values := GoMap.insert d.Values c V } } := by
  rcases hS : s.Session w with ⟨o, s0, w0⟩
  cases o with
  | abort f => simp [session.Set, hS] at h
  | ret d =>
    cases K with
    | slice elems => simp [session.Set, hS, GoMap.assign] at h
    | comparable c =>
      simp only [session.Set, hS, GoMap.assign, Prod.mk.injEq, true_and] at h
      exact ⟨d, c, s0, by rw [h.2], rfl, h.1.symm⟩

theorem GoMap.index_insert_self (m : GoMap) (c : Comparable) (V : Value)
    (h : c.selfEqual = true) :
    GoMap.index (GoMap.insert m c V) (.comparable c) = .ret V := by
  simp [GoMap.index, GoMap.lookup_insert_self m c V h]

theorem GoMap.index_insert_of_not_selfEqual (m : GoMap) (c : Comparable) (V K2 : Value)
    (h : c.selfEqual = false) :
    GoMap.index (GoMap.insert m c V) K2 = GoMap.index m K2 := by
  cases K2 with
  | slice elems => rfl
  | comparable c2 =>
    have h3 : Comparable.goEq c c2 = false := by
      cases h4 : Comparable.goEq c c2
      · rfl
      · obtain ⟨_, h6⟩ := (Comparable.goEq_iff c c2).1 h4
        have h7 : Comparable.selfEqual c = true := by
          rw [Comparable.selfEqual, Comparable.goEq_iff]
          exact ⟨rfl, h6⟩
        rw [h] at h7
        exact absurd h7 (by simp)
    simp only [GoMap.index, GoMap.insert, GoMap.lookup, GoMap.erase_of_not_selfEqual m c h]
    rw [List.find?_cons]
    simp only [h3]

theorem GoMap.index_of_not_selfEqual (m : GoMap) (c : Comparable)
    (h : c.selfEqual = false) : GoMap.index m (.comparable c) = .ret Value.nil := by
  simp [GoMap.index, GoMap.lookup_of_not_selfEqual m c h]

theorem GoMap.index_unreachable (m : GoMap) (c : Comparable) :
    GoMap.index (GoMap.unreachable m) (.comparable c) = .ret Value.nil := by
  simp [GoMap.index, GoMap.lookup_unreachable]

theorem GoMap.unreachable_eq_nil (m : GoMap) (h : ∀ e ∈ m, Comparable.selfEqual e.1 = true) :
    GoMap.unreachable m = [] := by
  simp only [GoMap.unreachable, List.filter_eq_nil_iff]
  intro e he
  simp [h e he]

theorem GoMap.index_insert_ne (m : GoMap) (c : Comparable) (V K2 : Value)
    (h : K2 ≠ .comparable c) :
    GoMap.index (GoMap.insert m c V) K2 = GoMap.index m K2 := by
  cases K2 with
  | slice elems => rfl
  | comparable c2 =>
    have h2 : c2 ≠ c := fun h3 => h (by rw [h3])
    simp [GoMap.index, GoMap.lookup_insert_ne m c c2 V h2]

theorem GoMap.index_erase_self (m : GoMap) (c : Comparable) :
    GoMap.index (GoMap.erase m c) (.comparable c) = .ret Value.nil := by
  simp [GoMap.index, GoMap.lookup_erase_self]

theorem GoMap.index_erase_ne (m : GoMap) (c : Comparable) (K2 : Value)
    (h : K2 ≠ .comparable c) :
    GoMap.index (GoMap.erase m c) K2 = GoMap.index m K2 := by
  cases K2 with
  | slice elems => rfl
  | comparable c2 =>
    have h2 : c2 ≠ c := fun h3 => h (by rw [h3])
    simp [GoMap.index, GoMap.lookup_erase_ne m c c2 h2]

theorem session.next_request_Get (s : GinSessions.session σ) (w : World σ)
    (d : sessions.Session) (h : s.session = some d) (hrt : Store.RoundTrip s.store)
    (hsave : (s.Save w).1 = .ret none) (name : String) (r2 : Request) (wr2 : ResponseWriter)
    (key : Value) :
    ((Sessions name s.store r2 wr2).Get key (s.Save w).2.2).1 = GoMap.index d.Values key := by
  obtain ⟨d2, s2, w2, hS, hv, _⟩ := session.next_request_fetch s w d h hrt hsave name r2 wr2
  simp [session.Get, hS, hv]

theorem session.next_request_Flashes (s : GinSessions.session σ) (w : World σ)
    (d : sessions.Session) (h : s.session = some d) (hrt : Store.RoundTrip s.store)
    (hsave : (s.Save w).1 = .ret none) (name : String) (r2 : Request) (wr2 : ResponseWriter)
    (vars : List String) :
    ((Sessions name s.store r2 wr2).Flashes vars (s.Save w).2.2).1 =
      .ret (FlashLists.get d.flashes (sessions.flashCategory vars)) := by
  obtain ⟨d2, s2, w2, hS, _, hfl⟩ := session.next_request_fetch s w d h hrt hsave name r2 wr2
  simp [session.Flashes, hS, sessions.Session.Flashes, hfl]

theorem memStore_RoundTrip : Store.RoundTrip memStore := by
  intro r wr d st _ r2 name
  exact ⟨⟨0, d.Values, d.flashes, none⟩, rfl, rfl, rfl⟩

/-! ## Flash messages -/

theorem FlashLists.get_erase_self (fl : FlashLists) (cat : Option String) :
    FlashLists.get (FlashLists.erase fl cat) cat = [] := by
  induction fl with
  | nil => rfl
  | cons e fl ih =>
    obtain ⟨a, b⟩ := e
    simp only [FlashLists.get, FlashLists.erase] at ih ⊢
    by_cases h1 : a = cat
    · subst h1
      rw [List.filter_cons]
      simp only [decide_True, Bool.not_true, Bool.false_eq_true, if_false]
      exact ih
    · rw [List.filter_cons]
      simp only [h1, decide_False, Bool.not_false, if_true]
      rw [List.find?_cons]
      simp only [h1, decide_False]
      exact ih

theorem FlashLists.get_put_self (fl : FlashLists) (cat : Option String) (vs : List Value) :
    FlashLists.get (FlashLists.put fl cat vs) cat = vs := by
  simp [FlashLists.get, FlashLists.put, List.find?]

theorem sessions.Session.addAll_flashes (xs : List Value) (vars : List String) :
    ∀ d : sessions.Session,
      FlashLists.get (d.addAll xs vars).flashes (sessions.flashCategory vars) =
        FlashLists.get d.flashes (sessions.flashCategory vars) ++ xs := by
  induction xs with
  | nil => intro d; simp [sessions.Session.addAll]
  | cons x xs ih =>
    intro d
    have h := ih (d.AddFlash x vars)
    simp only [sessions.Session.addAll, List.foldl_cons] at h ⊢
    rw [h]
    simp [sessions.Session.AddFlash, FlashLists.get_put_self]

theorem session.addFlashes_of_some (xs : List Value) (vars : List String) :
    ∀ (s : GinSessions.session σ) (w : World σ) (d : sessions.Session),
      s.session = some d →
      session.addFlashes xs vars s w =
        (.ret (), { s with session := some (d.addAll xs vars) }, w) := by
  induction xs with
  | nil =>
    intro s w d h
    cases s
    simp only at h
    subst h
    rfl
  | cons x xs ih =>
    intro s w d h
    rw [session.addFlashes, session.AddFlash_of_some s w d x vars h]
    simp only
    rw [ih _ w (d.AddFlash x vars) rfl]
    rfl

theorem session.addFlashes_then_Flashes (xs : List Value) (vars : List String)
    (s s0 : GinSessions.session σ) (w w0 : World σ) (d : sessions.Session)
    (hS : s.Session w = (.ret d, s0, w0)) :
    (session.addFlashes xs vars s w).1 = .ret () ∧
    (session.addFlashes xs vars s w).2.1.Flashes vars (session.addFlashes xs vars s w).2.2 =
      (.ret (FlashLists.get d.flashes (sessions.flashCategory vars) ++ xs),
        { s0 with session := some ((d.addAll xs vars).Flashes vars).2 }, w0) := by
  have h0 := (session.Session_ret s s0 w w0 d hS).1
  cases xs with
  | nil =>
    simp only [session.addFlashes, true_and]
    rw [session.Flashes_of_fetch s s0 w w0 d vars hS, session.Flashes_of_some s0 w0 d vars h0]
    simp [sessions.Session.addAll, sessions.Session.Flashes]
  | cons x xs =>
    have h1 : session.addFlashes (x :: xs) vars s w = session.addFlashes (x :: xs) vars s0 w0 := by
      rw [session.addFlashes, session.addFlashes,
        session.AddFlash_of_fetch s s0 w w0 d x vars hS]
    rw [h1, session.addFlashes_of_some (x :: xs) vars s0 w0 d h0]
    simp only [true_and]
    rw [session.Flashes_of_some _ w0 _ vars rfl]
    have h2 := sessions.Session.addAll_flashes (x :: xs) vars d
    simp only [sessions.Session.Flashes] at h2 ⊢
    rw [h2]

/-! ## One call, and sequences of calls -/

theorem session.apply_of_fetch (s s0 : GinSessions.session σ) (w w0 : World σ)
    (d : sessions.Session) (op : Op) (hS : s.Session w = (.ret d, s0, w0)) :
    s.apply op w = s0.apply op w0 := by
  cases op with
  | Get key => simp only [session.apply, session.Get_of_fetch s s0 w w0 d key hS]
  | Set key value => simp only [session.apply, session.Set_of_fetch s s0 w w0 d key value hS]
  | Delete key => simp only [session.apply, session.Delete_of_fetch s s0 w w0 d key hS]
  | Clear => simp only [session.apply, session.Clear_of_fetch s s0 w w0 d hS]
  | AddFlash value vars =>
    simp only [session.apply, session.AddFlash_of_fetch s s0 w w0 d value vars hS]
  | Flashes vars => simp only [session.apply, session.Flashes_of_fetch s s0 w w0 d vars hS]
  | Save => simp only [session.apply, session.Save_of_fetch s s0 w w0 d hS]
  | Options o => simp only [session.apply, session.Options_of_fetch s s0 w w0 d o hS]

theorem session.apply_of_fail (s s0 : GinSessions.session σ) (w w0 : World σ)
    (f : Fault) (op : Op) (hS : s.Session w = (.abort f, s0, w0)) :
    s.apply op w = (.abort f, s0, w0) := by
  cases op <;>
    simp [session.apply, session.Get, session.Set, session.Delete, session.Clear,
      session.AddFlash, session.Flashes, session.Save, session.Options, hS, Outcome.void]

theorem World.gets_save (st : σ) (calls : List StoreCall) (r : Request) (wr : ResponseWriter)
    (d : sessions.Session) :
    World.gets (⟨st, calls ++ [.save r wr d]⟩ : World σ) = calls.countP StoreCall.isGet := by
  simp [World.gets, List.countP_append, StoreCall.isGet]

theorem World.gets_get (st : σ) (calls : List StoreCall) (r : Request) (name : String) :
    World.gets (⟨st, calls ++ [.get r name]⟩ : World σ) =
      calls.countP StoreCall.isGet + 1 := by
  simp [World.gets, List.countP_append, StoreCall.isGet]

theorem World.saves_get (st : σ) (calls : List StoreCall) (r : Request) (name : String) :
    World.saves (⟨st, calls ++ [.get r name]⟩ : World σ) = calls.countP StoreCall.isSave := by
  simp [World.saves, List.countP_append, StoreCall.isSave]

theorem World.saves_save (st : σ) (calls : List StoreCall) (r : Request) (wr : ResponseWriter)
    (d : sessions.Session) :
    World.saves (⟨st, calls ++ [.save r wr d]⟩ : World σ) =
      calls.countP StoreCall.isSave + 1 := by
  simp [World.saves, List.countP_append, StoreCall.isSave]

theorem session.apply_of_some (s : GinSessions.session σ) (w : World σ)
    (d : sessions.Session) (op : Op) (h : s.session = some d) :
    (∃ d2 : sessions.Session, (s.apply op w).2.1.session = some d2 ∧ d2.ref = d.ref) ∧
    (s.apply op w).2.2.gets = w.gets ∧
    (op.isSave = false → (s.apply op w).2.2 = w) ∧
    (op.keyComparable = true → (s.apply op w).1 = .ret ()) := by
  cases op with
  | Get key =>
    simp [session.apply, session.Get_of_some s w d key h, h, Op.isSave]
    cases key <;> simp [Op.keyComparable, GoMap.index, Outcome.void]
  | Set key value =>
    cases key with
    | comparable c =>
      simp [session.apply, session.Set_of_some s w d c value h, Op.isSave]
    | slice elems =>
      simp [session.apply, session.Set_slice_of_some s w d elems value h, h, Op.isSave,
        Op.keyComparable]
  | Delete key =>
    cases key with
    | comparable c =>
      simp [session.apply, session.Delete_of_some s w d c h, Op.isSave]
    | slice elems =>
      simp [session.apply, session.Delete_slice_of_some s w d elems h, h, Op.isSave,
        Op.keyComparable]
  | Clear => simp [session.apply, session.Clear_of_some s w d h, Op.isSave]
  | AddFlash value vars =>
    simp [session.apply, session.AddFlash_of_some s w d value vars h, Op.isSave,
      sessions.Session.AddFlash]
  | Flashes vars =>
    simp [session.apply, session.Flashes_of_some s w d vars h, Op.isSave,
      sessions.Session.Flashes, Outcome.void]
  | Save =>
    simp [session.apply, session.Save_of_some s w d h, h, Op.isSave, Outcome.void,
      World.gets_save]
    rfl
  | Options o => simp [session.apply, session.Options_of_some s w d o h, Op.isSave]

theorem session.run_of_some (ops : List Op) :
    ∀ (s : GinSessions.session σ) (w : World σ) (d : sessions.Session),
      s.session = some d →
      (∃ d2 : sessions.Session, (session.run ops s w).2.1.session = some d2 ∧
        d2.ref = d.ref) ∧
      (session.run ops s w).2.2.gets = w.gets := by
  induction ops with
  | nil => intro s w d h; exact ⟨⟨d, h, rfl⟩, rfl⟩
  | cons op ops ih =>
    intro s w d h
    obtain ⟨⟨d2, h2, hr⟩, hg, _, _⟩ := session.apply_of_some s w d op h
    rw [session.run]
    rcases ha : s.apply op w with ⟨o, s1, w1⟩
    rw [ha] at h2 hg
    simp only at h2 hg
    cases o with
    | abort f => exact ⟨⟨d2, h2, hr⟩, hg⟩
    | ret u =>
      obtain ⟨⟨d3, h3, hr3⟩, hg3⟩ := ih s1 w1 d2 h2
      exact ⟨⟨d3, h3, hr3.trans hr⟩, hg3.trans hg⟩

theorem session.runAll_of_some (ops : List Op) :
    ∀ (s : GinSessions.session σ) (w : World σ) (d : sessions.Session),
      s.session = some d →
      (∃ d2 : sessions.Session, (session.runAll ops s w).1.session = some d2 ∧
        d2.ref = d.ref) ∧
      (session.runAll ops s w).2.gets = w.gets := by
  induction ops with
  | nil => intro s w d h; exact ⟨⟨d, h, rfl⟩, rfl⟩
  | cons op ops ih =>
    intro s w d h
    obtain ⟨⟨d2, h2, hr⟩, hg, _, _⟩ := session.apply_of_some s w d op h
    rw [session.runAll]
    obtain ⟨⟨d3, h3, hr3⟩, hg3⟩ := ih (s.apply op w).2.1 (s.apply op w).2.2 d2 h2
    exact ⟨⟨d3, h3, hr3.trans hr⟩, hg3.trans hg⟩

theorem session.Session_of_none (s : GinSessions.session σ) (w : World σ)
    (h : s.session = none) :
    (∃ e st, s.store.Get s.request s.name w.st = (.error e, st) ∧
      s.Session w = (.abort (.err e), s, ⟨st, w.calls ++ [.get s.request s.name]⟩)) ∨
    (∃ d st, s.store.Get s.request s.name w.st = (.ok d, st) ∧
      s.Session w = (.ret d, { s with session := some d },
        ⟨st, w.calls ++ [.get s.request s.name]⟩)) := by
  rcases hg : s.store.Get s.request s.name w.st with ⟨res, st⟩
  cases res with
  | error e => exact Or.inl ⟨e, st, rfl, by simp [session.Session, h, hg]⟩
  | ok d => exact Or.inr ⟨d, st, rfl, by simp [session.Session, h, hg]⟩

theorem session.run_gets_le (ops : List Op) (s : GinSessions.session σ) (w : World σ) :
    (session.run ops s w).2.2.gets ≤ w.gets + 1 := by
  cases hs : s.session with
  | some d => rw [(session.run_of_some ops s w d hs).2]; exact Nat.le_succ _
  | none =>
    cases ops with
    | nil => exact Nat.le_succ _
    | cons op ops =>
      rw [session.run]
      rcases session.Session_of_none s w hs with ⟨e, st, _, hS⟩ | ⟨d, st, _, hS⟩
      · rw [session.apply_of_fail s s _ _ _ op hS]
        simp only
        rw [World.gets_get]
        exact Nat.le_refl _
      · rw [session.apply_of_fetch s _ w _ d op hS]
        obtain ⟨⟨d2, h2, _⟩, hg, _, _⟩ := session.apply_of_some
          ({ s with session := some d } : GinSessions.session σ)
          ⟨st, w.calls ++ [.get s.request s.name]⟩ d op rfl
        rcases ha : session.apply ({ s with session := some d } : GinSessions.session σ) op
          ⟨st, w.calls ++ [.get s.request s.name]⟩ with ⟨o, s1, w1⟩
        rw [ha] at h2 hg
        simp only at h2 hg
        rw [World.gets_get] at hg
        have ha2 : session.apply ⟨s.name, s.request, s.writer, s.store, some d⟩ op
          ⟨st, w.calls ++ [.get s.request s.name]⟩ = (o, s1, w1) := ha
        rw [ha2]
        cases o with
        | abort f => exact Nat.le_of_eq hg
        | ret u =>
          show (session.run ops s1 w1).2.2.gets ≤ w.gets + 1
          rw [(session.run_of_some ops s1 w1 d2 h2).2, hg]
          exact Nat.le_refl _

/-! ## The properties of the specification -/

/-- C2, as stated, fails: a NaN key is stored by `Set` and never found by `Get`. On a
wrapper whose fetch succeeds, `Set(NaN, "world")` returns and `Get(NaN)` returns nil. -/
theorem Set_NaN_then_Get_nil :
    exampleSession.fetchOk exampleWorld = true ∧
    (exampleSession.Set (.comparable .nan) (.comparable (.str "world")) exampleWorld).1 =
      .ret () ∧
    ((exampleSession.Set (.comparable .nan) (.comparable (.str "world"))
        exampleWorld).2.1.Get (.comparable .nan)
      (exampleSession.Set (.comparable .nan) (.comparable (.str "world"))
        exampleWorld).2.2).1 = .ret Value.nil ∧
    ((exampleSession.Set (.comparable .nan) (.comparable (.str "world"))
        exampleWorld).2.1.Get (.comparable .nan)
      (exampleSession.Set (.comparable .nan) (.comparable (.str "world"))
        exampleWorld).2.2).1 ≠ .ret (.comparable (.str "world")) :=
  ⟨rfl, rfl, rfl, fun h => by
    have h2 : (Outcome.ret Value.nil : Outcome Value) = .ret (.comparable (.str "world")) := h
    simp [Value.nil] at h2⟩

/-- C2, amended: within one wrapper whose store fetch succeeds, for every key K and value V,
`Set(K, V)` returns when K can be hashed, and whenever it returns: `Get(K)` returns V if K
is equal to itself, `Get(K2)` for every other key K2 returns what it returned before the
`Set`, and if K is not equal to itself (a NaN) every `Get`, that of K included, returns
what it returned before, which is nil for K. -/
theorem Set_then_Get (s s1 : GinSessions.session σ) (w w1 : World σ) (K V : Value)
    (o1 : Outcome Unit) (hf : s.fetchOk w = true) (hset : s.Set K V w = (o1, s1, w1)) :
    (∀ c, K = .comparable c → o1 = .ret ()) ∧
    (o1 = .ret () →
      (K.selfEqual = true → (s1.Get K w1).1 = .ret V) ∧
      (∀ K2 : Value, K2 ≠ K → (s1.Get K2 w1).1 = (s.Get K2 w).1) ∧
      (K.selfEqual = false → (s1.Get K w1).1 = .ret Value.nil ∧
        ∀ K2 : Value, (s1.Get K2 w1).1 = (s.Get K2 w).1)) := by
  obtain ⟨d, s0, w0, hS⟩ := (session.fetchOk_iff s w).1 hf
  have h0 := (session.Session_ret s s0 w w0 d hS).1
  constructor
  · intro c hc
    subst hc
    rw [session.Set_of_fetch s s0 w w0 d _ _ hS, session.Set_of_some s0 w0 d c V h0] at hset
    simp only [Prod.mk.injEq] at hset
    exact hset.1.symm
  · intro ho
    subst ho
    obtain ⟨d2, c, s02, hS2, hK, hs1⟩ := session.Set_ret_inv s s1 w w1 K V hset
    rw [hS] at hS2
    simp only [Prod.mk.injEq, Outcome.ret.injEq] at hS2
    obtain ⟨hd, hs, hw⟩ := hS2
    subst hd; subst hs; subst hw; subst hK; subst hs1
    have hbefore : ∀ K2 : Value, (s.Get K2 w).1 = GoMap.index d.Values K2 := by
      intro K2
      rw [session.Get_of_fetch s s0 w w0 d K2 hS, session.Get_of_some s0 w0 d K2 h0]
    refine ⟨?_, ?_, ?_⟩
    · intro hself
      rw [session.Get_of_some _ w0 _ _ rfl]
      exact GoMap.index_insert_self d.Values c V hself
    · intro K2 hne
      rw [session.Get_of_some _ w0 _ _ rfl, hbefore]
      exact GoMap.index_insert_ne d.Values c V K2 hne
    · intro hself
      have hall : ∀ K2 : Value, (({ s0 with session := some { d with
          Values := GoMap.insert d.Values c V } } : GinSessions.session σ).Get K2 w0).1 =
          (s.Get K2 w).1 := by
        intro K2
        rw [session.Get_of_some _ w0 _ _ rfl, hbefore]
        exact GoMap.index_insert_of_not_selfEqual d.Values c V K2 hself
      refine ⟨?_, hall⟩
      rw [hall, hbefore]
      exact GoMap.index_of_not_selfEqual d.Values c hself

/-- Witness of C2 amended: the first request of the round-trip scenario sets hello to
world. -/
theorem Set_then_Get_witness :
    exampleSession.fetchOk exampleWorld = true ∧
    Value.selfEqual (.comparable (.str "hello")) = true ∧
    (exampleSession.Set (.comparable (.str "hello")) (.comparable (.str "world"))
      exampleWorld).1 = .ret () ∧
    ((exampleSession.Set (.comparable (.str "hello")) (.comparable (.str "world"))
        exampleWorld).2.1.Get (.comparable (.str "hello"))
      (exampleSession.Set (.comparable (.str "hello")) (.comparable (.str "world"))
        exampleWorld).2.2).1 = .ret (.comparable (.str "world")) :=
  ⟨rfl, rfl, rfl, ((Set_then_Get exampleSession _ exampleWorld _ (.comparable (.str "hello"))
    (.comparable (.str "world")) _ rfl rfl).2 rfl).1 rfl⟩

/-- C3: for every key K and value V, once `Set(K, V)` has returned, `Delete(K)` returns,
`Get(K)` then returns the absent marker nil (so not V, unless V is itself nil), every other
key reads as before the `Set`, and after a successful `Save()` to a store that hands back
what it was given, the wrapper of a later request also reads nil for K. -/
theorem Set_Delete_Get (s s1 s2 : GinSessions.session σ) (w w1 w2 : World σ) (K V : Value)
    (o2 : Outcome Unit) (hset : s.Set K V w = (.ret (), s1, w1))
    (hdel : s1.Delete K w1 = (o2, s2, w2)) :
    o2 = .ret () ∧ (s2.Get K w2).1 = .ret Value.nil ∧
    (V ≠ Value.nil → (s2.Get K w2).1 ≠ .ret V) ∧
    (∀ K2 : Value, K2 ≠ K → (s2.Get K2 w2).1 = (s.Get K2 w).1) ∧
    (Store.RoundTrip s.store → ∀ (s3 : GinSessions.session σ) (w3 : World σ),
      s2.Save w2 = (.ret none, s3, w3) → ∀ (r2 : Request) (wr2 : ResponseWriter),
        ((Sessions s.name s.store r2 wr2).Get K w3).1 = .ret Value.nil) := by
  obtain ⟨d, c, s0, hS, hK, hs1⟩ := session.Set_ret_inv s s1 w w1 K V hset
  obtain ⟨h0, _, _, _, hst⟩ := session.Session_ret s s0 w w1 d hS
  subst hK; subst hs1
  rw [session.Delete_of_some _ w1 _ c rfl] at hdel
  simp only [Prod.mk.injEq] at hdel
  obtain ⟨ho, hs2, hw2⟩ := hdel
  subst ho; subst hs2; subst hw2
  have hget : ∀ K2 : Value, ((({ s0 with session := some { d with
      Values := GoMap.erase (GoMap.insert d.Values c V) c } } :
      GinSessions.session σ).Get K2 w1).1 =
      GoMap.index (GoMap.erase (GoMap.insert d.Values c V) c) K2) := by
    intro K2
    rw [session.Get_of_some _ w1 _ K2 rfl]
  have hnil := GoMap.index_erase_self (GoMap.insert d.Values c V) c
  refine ⟨rfl, ?_, ?_, ?_, ?_⟩
  · rw [hget]; exact hnil
  · intro hV hV2
    rw [hget, hnil] at hV2
    exact hV (Outcome.ret.inj hV2).symm
  · intro K2 hne
    rw [hget, GoMap.index_erase_ne _ c K2 hne, GoMap.index_insert_ne _ c V K2 hne,
      session.Get_of_fetch s s0 w w1 d K2 hS, session.Get_of_some s0 w1 d K2 h0]
  · intro hrt s3 w3 hsave r2 wr2
    have h := session.next_request_Get ({ s0 with session := some { d with
      Values := GoMap.erase (GoMap.insert d.Values c V) c } } : GinSessions.session σ) w1 _ rfl
      (by rw [← hst] at hrt; exact hrt) (by rw [hsave]) s.name r2 wr2 (.comparable c)
    rw [hsave] at h
    simp only [hst] at h
    rw [h]
    exact hnil

/-- Witness of C3: set hello to world, delete hello, save, read hello in the next request. -/
theorem Set_Delete_Get_witness :
    exampleSession.Set (.comparable (.str "hello")) (.comparable (.str "world")) exampleWorld =
      (.ret (), (exampleSession.Set (.comparable (.str "hello")) (.comparable (.str "world"))
        exampleWorld).2) ∧
    ((exampleSession.Set (.comparable (.str "hello")) (.comparable (.str "world"))
        exampleWorld).2.1.Get (.comparable (.str "hello"))
      (exampleSession.Set (.comparable (.str "hello")) (.comparable (.str "world"))
        exampleWorld).2.2).1 = .ret (.comparable (.str "world")) ∧
    (((exampleSession.Set (.comparable (.str "hello")) (.comparable (.str "world"))
        exampleWorld).2.1.Delete (.comparable (.str "hello"))
      (exampleSession.Set (.comparable (.str "hello")) (.comparable (.str "world"))
        exampleWorld).2.2).2.1.Get (.comparable (.str "hello"))
      ((exampleSession.Set (.comparable (.str "hello")) (.comparable (.str "world"))
        exampleWorld).2.1.Delete (.comparable (.str "hello"))
      (exampleSession.Set (.comparable (.str "hello")) (.comparable (.str "world"))
        exampleWorld).2.2).2.2).1 =
      .ret Value.nil :=
  ⟨rfl, rfl, (Set_Delete_Get exampleSession _ _ exampleWorld _ _ (.comparable (.str "hello"))
    (.comparable (.str "world")) _ rfl rfl).2.1⟩

/-- C1, as stated, fails: a value stored under a NaN key does not come back. Request 1
performs `Set(NaN, "world")` and a `Save()` that succeeds, on a store that hands back what
it was given; `Get(NaN)` in request 2 returns nil. -/
theorem round_trip_NaN_lost :
    Store.RoundTrip exampleSession.store ∧
    (exampleSession.Set (.comparable .nan) (.comparable (.str "world")) exampleWorld).1 =
      .ret () ∧
    ((exampleSession.Set (.comparable .nan) (.comparable (.str "world"))
        exampleWorld).2.1.Save
      (exampleSession.Set (.comparable .nan) (.comparable (.str "world"))
        exampleWorld).2.2).1 = .ret none ∧
    ((Sessions "my_session" memStore ⟨2⟩ ⟨2⟩).Get (.comparable .nan)
      ((exampleSession.Set (.comparable .nan) (.comparable (.str "world"))
        exampleWorld).2.1.Save
        (exampleSession.Set (.comparable .nan) (.comparable (.str "world"))
          exampleWorld).2.2).2.2).1 = .ret Value.nil ∧
    ((Sessions "my_session" memStore ⟨2⟩ ⟨2⟩).Get (.comparable .nan)
      ((exampleSession.Set (.comparable .nan) (.comparable (.str "world"))
        exampleWorld).2.1.Save
        (exampleSession.Set (.comparable .nan) (.comparable (.str "world"))
          exampleWorld).2.2).2.2).1 ≠ .ret (.comparable (.str "world")) :=
  ⟨memStore_RoundTrip, rfl, rfl, rfl, fun h => by
    have h2 : (Outcome.ret Value.nil : Outcome Value) = .ret (.comparable (.str "world")) := h
    simp [Value.nil] at h2⟩

/-- C1, amended: for every key K that is equal to itself and every value V, and every store
whose get returns the session data most recently handed to its save, if the wrapper of a
first request performs `Set(K, V)` and then `Save()` returns a nil error, the fresh wrapper
of a later request returns V from `Get(K)`. -/
theorem round_trip (s s1 s2 : GinSessions.session σ) (w w1 w2 : World σ) (K V : Value)
    (hK : K.selfEqual = true)
    (hrt : Store.RoundTrip s.store) (hset : s.Set K V w = (.ret (), s1, w1))
    (hsave : s1.Save w1 = (.ret none, s2, w2)) (r2 : Request) (wr2 : ResponseWriter) :
    ((Sessions s.name s.store r2 wr2).Get K w2).1 = .ret V := by
  obtain ⟨d, c, s0, hS, hKc, hs1⟩ := session.Set_ret_inv s s1 w w1 K V hset
  obtain ⟨_, _, _, _, hst⟩ := session.Session_ret s s0 w w1 d hS
  subst hKc; subst hs1
  have h := session.next_request_Get ({ s0 with session := some { d with
    Values := GoMap.insert d.Values c V } } : GinSessions.session σ) w1 _ rfl
    (by rw [← hst] at hrt; exact hrt) (by rw [hsave]) s.name r2 wr2 (.comparable c)
  rw [hsave] at h
  simp only [hst] at h
  rw [h]
  exact GoMap.index_insert_self d.Values c V hK

/-- Witness of C1 amended: request 1 sets hello to world and saves, request 2 reads
hello. -/
theorem round_trip_witness :
    Value.selfEqual (.comparable (.str "hello")) = true ∧
    Store.RoundTrip exampleSession.store ∧
    ((Sessions "my_session" memStore ⟨2⟩ ⟨2⟩).Get (.comparable (.str "hello"))
      ((exampleSession.Set (.comparable (.str "hello")) (.comparable (.str "world"))
        exampleWorld).2.1.Save
        (exampleSession.Set (.comparable (.str "hello")) (.comparable (.str "world"))
          exampleWorld).2.2).2.2).1 = .ret (.comparable (.str "world")) :=
  ⟨rfl, memStore_RoundTrip, round_trip exampleSession _ _ exampleWorld _ _
    (.comparable (.str "hello")) (.comparable (.str "world")) rfl memStore_RoundTrip rfl rfl
    ⟨2⟩ ⟨2⟩⟩

/-- C4, as stated, fails: `Clear()` does not remove an entry whose key is a NaN, because
`delete(m, NaN)` finds nothing to delete. After `Set(NaN, "world")` and `Clear()` the
mapping still holds that entry. -/
theorem Clear_keeps_NaN_entry :
    (exampleSession.Set (.comparable .nan) (.comparable (.str "world")) exampleWorld).1 =
      .ret () ∧
    ((exampleSession.Set (.comparable .nan) (.comparable (.str "world"))
        exampleWorld).2.1.Clear
      (exampleSession.Set (.comparable .nan) (.comparable (.str "world"))
        exampleWorld).2.2).1 = .ret () ∧
    ((exampleSession.Set (.comparable .nan) (.comparable (.str "world"))
        exampleWorld).2.1.Clear
      (exampleSession.Set (.comparable .nan) (.comparable (.str "world"))
        exampleWorld).2.2).2.1.session.map sessions.Session.Values =
      some [(.nan, .comparable (.str "world"))] ∧
    ((exampleSession.Set (.comparable .nan) (.comparable (.str "world"))
        exampleWorld).2.1.Clear
      (exampleSession.Set (.comparable .nan) (.comparable (.str "world"))
        exampleWorld).2.2).2.1.session.map sessions.Session.Values ≠ some [] :=
  ⟨rfl, rfl, rfl, fun h => by
    have h2 : (some [(Comparable.nan, Value.comparable (.str "world"))] : Option GoMap) =
      some [] := h
    simp at h2⟩

/-- C4, amended: for every session data object, whatever keys it holds, `Clear()` returns
and removes every entry whose key is equal to itself, so that the key/value mapping is
empty when no key is a NaN (the entries under a NaN key stay), and `Get(K)` returns the
absent marker nil for every key K a map can hold; after a successful `Save()` to a store
that hands back what it was given, the wrapper of a later request reads nil for every such
key as well. The loop deletes the entries of the map it ranges over. -/
theorem Clear_empties (s s1 : GinSessions.session σ) (w w1 : World σ)
    (d : sessions.Session) (o1 : Outcome Unit)
    (hS : (s.Session w).1 = .ret d) (hclear : s.Clear w = (o1, s1, w1)) :
    o1 = .ret () ∧
    s1.session.map sessions.Session.Values = some (GoMap.unreachable d.Values) ∧
    ((∀ e ∈ d.Values, Comparable.selfEqual e.1 = true) →
      s1.session.map sessions.Session.Values = some []) ∧
    (∀ c : Comparable, (s1.Get (.comparable c) w1).1 = .ret Value.nil) ∧
    (Store.RoundTrip s.store → ∀ (s2 : GinSessions.session σ) (w2 : World σ),
      s1.Save w1 = (.ret none, s2, w2) →
      ∀ (r2 : Request) (wr2 : ResponseWriter) (c : Comparable),
        ((Sessions s.name s.store r2 wr2).Get (.comparable c) w2).1 = .ret Value.nil) := by
  rcases hSp : s.Session w with ⟨o, s0, w0⟩
  rw [hSp] at hS
  simp only at hS
  subst hS
  obtain ⟨h0, _, _, _, hst⟩ := session.Session_ret s s0 w w0 d hSp
  rw [session.Clear_of_fetch s s0 w w0 d hSp, session.Clear_of_some s0 w0 d h0] at hclear
  simp only [Prod.mk.injEq] at hclear
  obtain ⟨ho, hs1, hw1⟩ := hclear
  subst ho; subst hs1; subst hw1
  refine ⟨rfl, rfl, ?_, ?_, ?_⟩
  · intro hall
    simp only [Option.map_some', GoMap.unreachable_eq_nil d.Values hall]
  · intro c
    rw [session.Get_of_some _ w0 _ _ rfl]
    exact GoMap.index_unreachable d.Values c
  · intro hrt s2 w2 hsave r2 wr2 c
    have h := session.next_request_Get ({ s0 with session := some { d with
      Values := GoMap.unreachable d.Values } } : GinSessions.session σ) w0 _ rfl
      (by rw [← hst] at hrt; exact hrt) (by rw [hsave]) s.name r2 wr2 (.comparable c)
    rw [hsave] at h
    simp only [hst] at h
    rw [h]
    exact GoMap.index_unreachable d.Values c

/-- Witness of C4 amended: a session holding hello, foo and apples is cleared. -/
theorem Clear_empties_witness :
    (exampleSession.Session exampleWorld3).1 = .ret ⟨0, exampleWorld3.st.1,
      exampleWorld3.st.2, none⟩ ∧
    (∀ e ∈ exampleWorld3.st.1, Comparable.selfEqual e.1 = true) ∧
    ((exampleSession.Get (.comparable (.str "foo")) exampleWorld3).1 =
      .ret (.comparable (.str "bar")) ∧
     (exampleSession.Clear exampleWorld3).1 = .ret () ∧
     (exampleSession.Clear exampleWorld3).2.1.session.map sessions.Session.Values = some [] ∧
     ∀ c : Comparable, ((exampleSession.Clear exampleWorld3).2.1.Get (.comparable c)
       (exampleSession.Clear exampleWorld3).2.2).1 = .ret Value.nil) :=
  ⟨rfl, by decide, rfl,
    (Clear_empties exampleSession _ exampleWorld3 _ _ _ rfl rfl).1,
    (Clear_empties exampleSession _ exampleWorld3 _ _ _ rfl rfl).2.2.1 (by decide),
    (Clear_empties exampleSession _ exampleWorld3 _ _ _ rfl rfl).2.2.2.1⟩

/-- C5: for every category and every sequence of values queued with `AddFlash` on a session
that had no flashes in that category, `Flashes(category)` returns exactly those values in
insertion order and removes them: a `Flashes(category)` that follows at once returns the
empty sequence, and so does the one of a later request after a successful `Save()` to a
store that hands back what it was given. -/
theorem Flashes_exactly_once (s s1 s2 s3 : GinSessions.session σ) (w w1 w2 w3 : World σ)
    (d : sessions.Session) (vars : List String) (xs : List Value)
    (o1 : Outcome Unit) (o2 o3 : Outcome (List Value))
    (hS : (s.Session w).1 = .ret d)
    (hno : FlashLists.get d.flashes (sessions.flashCategory vars) = [])
    (hadd : session.addFlashes xs vars s w = (o1, s1, w1))
    (hfl : s1.Flashes vars w1 = (o2, s2, w2))
    (hfl2 : s2.Flashes vars w2 = (o3, s3, w3)) :
    o1 = .ret () ∧ o2 = .ret xs ∧ o3 = .ret [] ∧
    (Store.RoundTrip s.store → ∀ (s4 : GinSessions.session σ) (w4 : World σ),
      s2.Save w2 = (.ret none, s4, w4) → ∀ (r2 : Request) (wr2 : ResponseWriter),
        ((Sessions s.name s.store r2 wr2).Flashes vars w4).1 = .ret []) := by
  rcases hSp : s.Session w with ⟨o, s0, w0⟩
  rw [hSp] at hS
  simp only at hS
  subst hS
  obtain ⟨_, _, _, _, hst⟩ := session.Session_ret s s0 w w0 d hSp
  obtain ⟨ha, hb⟩ := session.addFlashes_then_Flashes xs vars s s0 w w0 d hSp
  rw [hadd] at ha hb
  simp only at ha hb
  rw [hfl, hno, List.nil_append] at hb
  simp only [Prod.mk.injEq] at hb
  obtain ⟨ho2, hs2, hw2⟩ := hb
  subst ho2; subst hs2; subst hw2
  have hempty : FlashLists.get ((d.addAll xs vars).Flashes vars).2.flashes
      (sessions.flashCategory vars) = [] := by
    simp only [sessions.Session.Flashes]
    exact FlashLists.get_erase_self _ _
  rw [session.Flashes_of_some _ w2 _ vars rfl] at hfl2
  simp only [Prod.mk.injEq] at hfl2
  refine ⟨ha, rfl, ?_, ?_⟩
  · rw [← hfl2.1]
    simp only [sessions.Session.Flashes]
    rw [FlashLists.get_erase_self]
  · intro hrt s4 w4 hsave r2 wr2
    have h := session.next_request_Flashes ({ s0 with
      session := some ((d.addAll xs vars).Flashes vars).2 } : GinSessions.session σ) w2 _ rfl
      (by rw [← hst] at hrt; exact hrt) (by rw [hsave]) s.name r2 wr2 vars
    rw [hsave] at h
    simp only [hst] at h
    rw [h, hempty]

/-- Witness of C5: two messages are queued in the category "notice" of an empty session. -/
theorem Flashes_exactly_once_witness :
    (exampleSession.Session exampleWorld).1 =
      .ret { ref := 0, Values := [], flashes := [], Options := none } ∧
    FlashLists.get [] (sessions.flashCategory ["notice"]) = [] ∧
    (((session.addFlashes [.comparable (.int 1), .comparable (.int 2)] ["notice"]
        exampleSession exampleWorld).2.1.Flashes ["notice"]
      (session.addFlashes [.comparable (.int 1), .comparable (.int 2)] ["notice"]
        exampleSession exampleWorld).2.2).1 =
      .ret [.comparable (.int 1), .comparable (.int 2)]) :=
  ⟨rfl, rfl, (Flashes_exactly_once exampleSession _ _ _ exampleWorld _ _ _ _ ["notice"]
    [.comparable (.int 1), .comparable (.int 2)] _ _ _ rfl rfl rfl rfl rfl).2.1⟩

/-- C6: for every Options value o and whatever options the session had before, `Options(o)`
returns and leaves the session with options whose Path, Domain, MaxAge, Secure and HttpOnly
equal those of o field by field (nothing of the previous options survives: a Domain that o
leaves empty is empty afterwards), while the key/value data, the flash messages and the
identity of the session object are unchanged. -/
theorem Options_replaces (s s0 s1 : GinSessions.session σ) (w w0 w1 : World σ)
    (d : sessions.Session) (o : GinSessions.Options) (o1 : Outcome Unit)
    (hS : s.Session w = (.ret d, s0, w0)) (hopt : s.Options o w = (o1, s1, w1)) :
    o1 = .ret () ∧ w1 = w0 ∧
    ∃ (d1 : sessions.Session) (p : sessions.Options),
      s1.session = some d1 ∧ d1.Options = some p ∧
      p.Path = o.Path ∧ p.Domain = o.Domain ∧ p.MaxAge = o.MaxAge ∧
      p.Secure = o.Secure ∧ p.HttpOnly = o.HttpOnly ∧
      (o.Domain = "" → p.Domain = "") ∧
      d1.Values = d.Values ∧ d1.flashes = d.flashes ∧ d1.ref = d.ref := by
  have h0 := (session.Session_ret s s0 w w0 d hS).1
  rw [session.Options_of_fetch s s0 w w0 d o hS, session.Options_of_some s0 w0 d o h0] at hopt
  simp only [Prod.mk.injEq] at hopt
  obtain ⟨ho, hs1, hw1⟩ := hopt
  subst ho; subst hs1; subst hw1
  exact ⟨rfl, rfl, _, _, rfl, rfl, rfl, rfl, rfl, rfl, rfl, fun h => h, rfl, rfl, rfl⟩

/-- Witness of C6: the session carries the default domain maji.moe and only Path is set. -/
theorem Options_replaces_witness :
    exampleInitialized.Session exampleWorld =
      (.ret exampleData, exampleInitialized, exampleWorld) ∧
    exampleData.Options = some { Domain := "maji.moe" } ∧
    ((exampleInitialized.Options { Path := "/foo/bar/bat" } exampleWorld).1 = .ret () ∧
     ((exampleInitialized.Options { Path := "/foo/bar/bat" } exampleWorld).2.1.session.map
        sessions.Session.Options) = some (some { Path := "/foo/bar/bat", Domain := "" })) :=
  ⟨rfl, rfl, (Options_replaces exampleInitialized _ _ exampleWorld _ _ _
    { Path := "/foo/bar/bat" } _ rfl rfl).1, rfl⟩

/-- C7, as stated, fails: a fetch that fails is not memoized. On a wrapper whose store
cannot decode the session, `Set` aborts and a `Save` called afterwards (a deferred one, say)
asks the store again: the store's get is called twice. -/
theorem failed_fetch_is_retried :
    exampleFailing.session = none ∧
    (exampleFailing.Set (.comparable (.str "hello")) (.comparable (.str "world"))
      ⟨(), []⟩).1 = .abort (.err "bad cookie") ∧
    (session.runAll [.Set (.comparable (.str "hello")) (.comparable (.str "world")), .Save]
      exampleFailing ⟨(), []⟩).2.gets = 2 ∧
    ¬ (∀ (ops : List Op) (s : GinSessions.session Unit) (w : World Unit),
        (session.runAll ops s w).2.gets ≤ w.gets + 1) :=
  ⟨rfl, rfl, rfl, fun h => absurd
    (h [.Set (.comparable (.str "hello")) (.comparable (.str "world")), .Save]
      exampleFailing ⟨(), []⟩) (by decide)⟩

/-- C7, amended: for every store and every sequence of calls of the eight operations on one
wrapper in which no call follows one that aborted, the store's get is called at most once;
and a wrapper that is initialized stays initialized with the same session object, without
any further fetch, whatever is called on it afterwards, aborting calls included. -/
theorem fetch_at_most_once (ops : List Op) (s : GinSessions.session σ) (w : World σ) :
    (session.run ops s w).2.2.gets ≤ w.gets + 1 ∧
    (∀ d : sessions.Session, s.session = some d →
      (∃ d2 : sessions.Session, (session.runAll ops s w).1.session = some d2 ∧
        d2.ref = d.ref) ∧
      (session.runAll ops s w).2.gets = w.gets) :=
  ⟨session.run_gets_le ops s w, fun d h => session.runAll_of_some ops s w d h⟩

/-- Witness of C7 amended: five calls on a fresh wrapper fetch once, five more calls on an
initialized wrapper do not fetch. -/
theorem fetch_at_most_once_witness :
    (session.run [.Get (.comparable (.str "hello")),
        .Set (.comparable (.str "hello")) (.comparable (.str "world")), .Save,
        .Flashes [], .Get (.comparable (.str "hello"))] exampleSession exampleWorld).2.2.gets
      = 1 ∧
    exampleInitialized.session = some exampleData ∧
    (session.runAll [.Clear, .AddFlash (.comparable (.int 1)) [], .Get (.slice []), .Save,
        .Delete (.comparable (.int 3))] exampleInitialized exampleWorld).2.gets = 0 :=
  ⟨rfl, rfl, ((fetch_at_most_once [.Clear, .AddFlash (.comparable (.int 1)) [],
    .Get (.slice []), .Save, .Delete (.comparable (.int 3))] exampleInitialized
      exampleWorld).2 exampleData rfl).2⟩

/-- C8: on an uninitialized wrapper whose store's get returns an error, every one of the
eight operations aborts with that very error instead of returning; the wrapper is left as
it was (uninitialized, no session data touched), and the only call made to the store is the
failed get: nothing is saved. -/
theorem fetch_error_aborts (s : GinSessions.session σ) (w : World σ) (op : Op) (e : Error)
    (st : σ) (hnone : s.session = none)
    (hget : s.store.Get s.request s.name w.st = (.error e, st)) :
    s.apply op w = (.abort (.err e), s, ⟨st, w.calls ++ [.get s.request s.name]⟩) ∧
    (s.apply op w).2.1.session = none ∧
    (s.apply op w).2.2.saves = w.saves ∧
    (∀ key : Value, (s.Get key w).1 = .abort (.err e)) ∧
    (∀ vars : List String, (s.Flashes vars w).1 = .abort (.err e)) ∧
    (s.Save w).1 = .abort (.err e) := by
  have hS : s.Session w = (.abort (.err e), s, ⟨st, w.calls ++ [.get s.request s.name]⟩) := by
    simp [session.Session, hnone, hget]
  rw [session.apply_of_fail s s w _ _ op hS]
  refine ⟨rfl, hnone, ?_, ?_, ?_, ?_⟩
  · exact World.saves_get st w.calls s.request s.name
  · intro key
    simp [session.Get, hS]
  · intro vars
    simp [session.Flashes, hS]
  · simp [session.Save, hS]

/-- Witness of C8: `Save()` on a wrapper whose store cannot decode the cookie. -/
theorem fetch_error_aborts_witness :
    exampleFailing.session = none ∧
    exampleFailing.store.Get exampleFailing.request exampleFailing.name () =
      (.error "bad cookie", ()) ∧
    exampleFailing.apply .Save ⟨(), []⟩ =
      (.abort (.err "bad cookie"), exampleFailing, ⟨(), [.get ⟨1⟩ "my_session"]⟩) :=
  ⟨rfl, rfl, (fetch_error_aborts exampleFailing ⟨(), []⟩ .Save "bad cookie" () rfl rfl).1⟩

/-- C9: on a wrapper whose fetch succeeds, `Save()` hands the memoized session object
together with the wrapper's own request and response writer to the store's save, exactly
once, and returns what that save returned: an error if and only if the store's save failed,
the store's own error in that case, nil otherwise. -/
theorem Save_propagates (s s0 : GinSessions.session σ) (w w0 : World σ)
    (d : sessions.Session) (hS : s.Session w = (.ret d, s0, w0)) :
    (s.Save w).1 = .ret (s.store.Save s.request s.writer d w0.st).1 ∧
    (s.Save w).2.1 = s0 ∧ s0.session = some d ∧
    (s.Save w).2.2 = ⟨(s.store.Save s.request s.writer d w0.st).2,
      w0.calls ++ [.save s.request s.writer d]⟩ ∧
    (s.Save w).2.2.saves = w0.saves + 1 ∧
    (∀ e : Error, (s.Save w).1 = .ret (some e) ↔
      (s.store.Save s.request s.writer d w0.st).1 = some e) ∧
    ((s.Save w).1 = .ret none ↔ (s.store.Save s.request s.writer d w0.st).1 = none) := by
  obtain ⟨h0, _, h2, h3, h4⟩ := session.Session_ret s s0 w w0 d hS
  rw [session.Save_of_fetch s s0 w w0 d hS, session.Save_of_some s0 w0 d h0, h2, h3, h4]
  refine ⟨rfl, rfl, h0, rfl, ?_, ?_, ?_⟩
  · exact World.saves_save _ _ _ _ _
  · intro e
    simp
  · simp

/-- Witness of C9: the first `Save()` of a request, on a store that accepts it. -/
theorem Save_propagates_witness :
    exampleSession.Session exampleWorld =
      (.ret ⟨0, [], [], none⟩,
        ⟨"my_session", ⟨1⟩, ⟨1⟩, memStore, some ⟨0, [], [], none⟩⟩,
        ⟨([], []), [.get ⟨1⟩ "my_session"]⟩) ∧
    (exampleSession.Save exampleWorld).1 = .ret none ∧
    (exampleSession.Save exampleWorld).2.2.calls =
      [.get ⟨1⟩ "my_session", .save ⟨1⟩ ⟨1⟩ ⟨0, [], [], none⟩] :=
  ⟨rfl, (Save_propagates exampleSession _ exampleWorld _ _ rfl).1, rfl⟩

/-- C10, as stated, fails: on an initialized wrapper `Get`, `Set` and `Delete` abort when
the key is a slice, a value that cannot be hashed. -/
theorem unhashable_key_aborts :
    exampleInitialized.session = some exampleData ∧
    (exampleInitialized.Get (.slice []) exampleWorld).1 = .abort (.unhashable (.slice [])) ∧
    (exampleInitialized.Set (.slice []) Value.nil exampleWorld).1 =
      .abort (.unhashable (.slice [])) ∧
    (exampleInitialized.Delete (.slice []) exampleWorld).1 =
      .abort (.unhashable (.slice [])) ∧
    ¬ (∀ (s : GinSessions.session (GoMap × FlashLists)) (w : World (GoMap × FlashLists))
        (d : sessions.Session) (op : Op), s.session = some d → op.isSave = false →
        (s.apply op w).1 = .ret ()) :=
  ⟨rfl, rfl, rfl, rfl, fun h => by
    have h2 := h exampleInitialized exampleWorld exampleData (.Get (.slice [])) rfl rfl
    exact absurd h2 (by simp [session.apply, exampleInitialized, session.Get, session.Session,
      GoMap.index, Outcome.void])⟩

/-- C10, amended: on a wrapper whose lazy fetch has succeeded, for every comparable key and
every value, category and Options argument, each of `Get`, `Set`, `Delete`, `Clear`,
`AddFlash`, `Flashes` and `Options` returns without aborting and leaves the world outside
the wrapper as it was: no call to the store's get or save. -/
theorem in_memory_operations_return (s : GinSessions.session σ) (w : World σ)
    (d : sessions.Session) (op : Op) (h : s.session = some d) (hop : op.isSave = false)
    (hkey : op.keyComparable = true) :
    (s.apply op w).1 = .ret () ∧ (s.apply op w).2.2 = w ∧
    (s.apply op w).2.2.gets = w.gets ∧ (s.apply op w).2.2.saves = w.saves := by
  obtain ⟨_, _, h3, h4⟩ := session.apply_of_some s w d op h
  refine ⟨h4 hkey, h3 hop, ?_, ?_⟩
  · rw [h3 hop]
  · rw [h3 hop]

/-- Witness of C10 amended: `Clear()` on an initialized wrapper. -/
theorem in_memory_operations_return_witness :
    exampleInitialized.session = some exampleData ∧
    Op.isSave .Clear = false ∧ Op.keyComparable .Clear = true ∧
    (exampleInitialized.apply .Clear exampleWorld).1 = .ret () ∧
    (exampleInitialized.apply .Clear exampleWorld).2.2 = exampleWorld :=
  ⟨rfl, rfl, rfl,
    (in_memory_operations_return exampleInitialized exampleWorld exampleData .Clear
      rfl rfl rfl).1,
    (in_memory_operations_return exampleInitialized exampleWorld exampleData .Clear
      rfl rfl rfl).2.1⟩

end GinSessions
